import Mathlib

/-! The `grpc-health-checking` endpoint.

A shallow embedding of `main.go` of the `grpc-health-checking` endpoint and a
verification of its health-state decision.

The program keeps five package-level variables (`port`, `httpPort`,
`delayUnhealthySec`, `service`, `forceUnhealthy`), a gRPC health service
(`HealthChecker.Check`, `HealthChecker.Watch`) and three HTTP handlers
registered by `startHttpEndpoint`.  Handlers are modelled as functions that take
the package-level variables and the reading of the monotonic clock at the moment
of the call and return the variables they leave behind together with their
answer.  Each handler is one atomic step; interleavings inside a handler and
logging are outside the model.

The comparison in `Check` is a comparison of two `float64` values
(`duration.Seconds() >= float64(delayUnhealthySec)`), so the embedding carries
an exact model of the `float64` operations that the comparison uses.
-/

namespace GrpcHealthChecking

/-! ## `float64` values and the operations used by `Duration.Seconds` -/

/-- A finite `float64`, given by the integer number of units of `2^-1074` (the
smallest positive `float64`) that it holds.  Every finite `float64` is such a
multiple; the two zeros are not told apart, which no comparison can do either. -/
structure Float64 where
  units : Int
deriving DecidableEq

namespace Float64

/-- The number 1.0 counted in units of `2^-1074`. -/
def unit : Nat := 2 ^ 1074

/-- Nearest natural number to the fraction `p / q`, a tie going to the even
neighbour. -/
def roundHalfEven (p q : Nat) : Nat :=
  let n := p / q
  let r := p % q
  if 2 * r < q then n
  else if q < 2 * r then n + 1
  else if n % 2 = 0 then n else n + 1

/-- Binary exponent of the spacing of the `float64` grid around `n` units: it is
`0` below `2^53` units (subnormal numbers and the first normal binade) and grows
by one with every further binade, so that a significand of 53 bits is kept.
The first argument bounds the number of halvings; `n` itself is always enough. -/
def quantumExp : Nat → Nat → Nat
  | 0, _ => 0
  | fuel + 1, n => if n < 2 ^ 53 then 0 else quantumExp fuel (n / 2) + 1

/-- Round-to-nearest-even of the non-negative fraction `p / q` (in units) to
the `float64` grid. -/
def roundNat (p q : Nat) : Nat :=
  let k := quantumExp (p / q) (p / q)
  roundHalfEven p (q * 2 ^ k) * 2 ^ k

/-- Round-to-nearest-even of the signed fraction `p / q` (in units); the rule
is symmetric around zero.  Overflow to infinity needs a magnitude of `2^1024`
and is not represented: the operands of this program come from 64-bit
integers. -/
def round (p : Int) (q : Nat) : Int :=
  if 0 ≤ p then (roundNat p.toNat q : Int) else -(roundNat (-p).toNat q : Int)

/-- The conversion `float64(n)` of an integer. -/
def ofInt (n : Int) : Float64 :=
  { units := round (n * (unit : Int)) 1 }

/-- The sum `a + b` of two `float64` values. -/
def add (a b : Float64) : Float64 :=
  { units := round (a.units + b.units) 1 }

/-- The quotient `a / b` of two `float64` values, for a divisor other than
zero (the only divisor of the program is the constant `1e9`). -/
def div (a b : Float64) : Float64 :=
  { units := round (a.units * b.units.sign * (unit : Int)) b.units.natAbs }

/-- The comparison `a >= b` of two `float64` values. -/
def ge (a b : Float64) : Bool :=
  decide (b.units ≤ a.units)

end Float64

/-! ## Package `time`: durations and the monotonic clock

A `time.Duration` is a signed 64-bit count of nanoseconds and is carried as an
`Int`; a `time.Time` made by `time.Now()` is carried as its reading of the
monotonic clock, in nanoseconds. -/

/-- The constant `time.Second`. -/
def Second : Int := 1000000000

/-- The largest `time.Duration`, `1<<63 - 1`. -/
def maxDuration : Int := 9223372036854775807

/-- The smallest `time.Duration`, `-1 << 63`. -/
def minDuration : Int := -9223372036854775808

/-- Two-complement wrap-around of a mathematical integer to `int64`. -/
def wrap64 (x : Int) : Int :=
  (x + 9223372036854775808) % 18446744073709551616 - 9223372036854775808

/-- The function `subMono` of package `time`: difference of two readings of the
monotonic clock, saturated at the ends of the `Duration` range. -/
def subMono (t u : Int) : Int :=
  let d := wrap64 (t - u)
  if d < 0 ∧ t > u then maxDuration
  else if d > 0 ∧ t < u then minDuration
  else d

/-- The call `time.Since(t)` when the monotonic clock reads `now`. -/
def Since (now t : Int) : Int := subMono now t

/-- The method `Duration.Seconds`:
`sec := d / Second; nsec := d % Second; return float64(sec) + float64(nsec)/1e9`,
with the truncating division and remainder of Go. -/
def Duration.Seconds (d : Int) : Float64 :=
  let sec := Int.tdiv d Second
  let nsec := Int.tmod d Second
  Float64.add (Float64.ofInt sec)
    (Float64.div (Float64.ofInt nsec) (Float64.ofInt 1000000000))

/-! ## Package-level variables and protocol messages -/

/-- The package-level variables of `main.go`.  The pointer `forceUnhealthy` is
`none` for `nil` and `some b` for a pointer to a cell holding `b`. -/
structure Globals where
  port : Int
  httpPort : Int
  delayUnhealthySec : Int
  service : String
  forceUnhealthy : Option Bool
deriving DecidableEq

/-- The values installed by `init`: the flag defaults and `forceUnhealthy = nil`. -/
def init : Globals :=
  { port := 8000, httpPort := 8080, delayUnhealthySec := -1, service := "",
    forceUnhealthy := none }

/-- The enumeration `grpc_health_v1.HealthCheckResponse_ServingStatus`. -/
inductive ServingStatus where
  | UNKNOWN
  | SERVING
  | NOT_SERVING
  | SERVICE_UNKNOWN
deriving DecidableEq

/-- The message `grpc_health_v1.HealthCheckRequest`. -/
structure HealthCheckRequest where
  Service : String
deriving DecidableEq

/-- The message `grpc_health_v1.HealthCheckResponse`. -/
structure HealthCheckResponse where
  Status : ServingStatus
deriving DecidableEq

/-- The gRPC status codes that `main.go` uses. -/
inductive Code where
  | NotFound
  | Unimplemented
deriving DecidableEq

/-- An error made by `status.Error` / `status.Errorf`: a code and a message. -/
structure StatusError where
  code : Code
  message : String
deriving DecidableEq

/-- The type `HealthChecker`; `started` is the monotonic reading of the
`time.Time` it holds. -/
structure HealthChecker where
  started : Int
deriving DecidableEq

/-- The constructor `NewHealthChecker`. -/
def NewHealthChecker (started : Int) : HealthChecker :=
  { started := started }

/-! ## The gRPC health service -/

/-- The method `HealthChecker.Check`.  The two components are the two results
of the Go method, the response pointer and the error, `none` standing for
`nil`.  The method assigns to no variable. -/
def HealthChecker.Check (s : HealthChecker) (g : Globals) (now : Int)
    (req : HealthCheckRequest) : Option HealthCheckResponse × Option StatusError :=
  if req.Service ≠ g.service then
    (none, some { code := Code.NotFound, message := "unknown service" })
  else
    let duration := Since now s.started
    if (match g.forceUnhealthy with
        | none => false
        | some b => b)
        || (decide (g.delayUnhealthySec ≥ 0)
            && Float64.ge (Duration.Seconds duration) (Float64.ofInt g.delayUnhealthySec)) then
      (some { Status := ServingStatus.NOT_SERVING }, none)
    else
      (some { Status := ServingStatus.SERVING }, none)

/-- The method `HealthChecker.Watch`.  The stream `server` is the list of the
messages sent on it so far; the results are the stream afterwards and the
error. -/
def HealthChecker.Watch (_s : HealthChecker) (_req : HealthCheckRequest)
    (server : List HealthCheckResponse) : List HealthCheckResponse × Option StatusError :=
  (server, some { code := Code.Unimplemented, message := "unimplemented" })

/-! ## The HTTP handlers of `startHttpEndpoint` -/

/-- An `http.ResponseWriter`: the status code sent so far (`none` before the
header is written) and the body written so far. -/
structure ResponseWriter where
  status : Option Nat
  body : String
deriving DecidableEq

/-- The writer that the HTTP server hands to a handler. -/
def ResponseWriter.fresh : ResponseWriter :=
  { status := none, body := "" }

/-- The method `WriteHeader`: the first call fixes the status code, later calls
are ignored. -/
def ResponseWriter.WriteHeader (w : ResponseWriter) (code : Nat) : ResponseWriter :=
  match w.status with
  | none => { w with status := some code }
  | some _ => w

/-- The method `Write`: sends the header with code 200 when none was sent, then
appends the data. -/
def ResponseWriter.Write (w : ResponseWriter) (data : String) : ResponseWriter :=
  let w1 := w.WriteHeader 200
  { w1 with body := w1.body ++ data }

namespace startHttpEndpoint

/-- The handler of `/make-not-serving`.  `started` is the variable captured by
the closure and `durationString` the method `Duration.String`. -/
def makeNotServing (durationString : Int → String) (started : Int)
    (g : Globals) (now : Int) (w : ResponseWriter) : Globals × ResponseWriter :=
  let g1 := { g with forceUnhealthy := some true }
  let w1 := w.WriteHeader 200
  let data := durationString (Since now started)
  (g1, w1.Write data)

/-- The handler of `/make-serving`. -/
def makeServing (durationString : Int → String) (started : Int)
    (g : Globals) (now : Int) (w : ResponseWriter) : Globals × ResponseWriter :=
  let g1 := { g with forceUnhealthy := some false }
  let w1 := w.WriteHeader 200
  let data := durationString (Since now started)
  (g1, w1.Write data)

/-- The handler of `/healthcheck`. -/
def healthcheck (durationString : Int → String) (started : Int)
    (g : Globals) (now : Int) (w : ResponseWriter) : Globals × ResponseWriter :=
  let w1 := w.WriteHeader 200
  let data := durationString (Since now started)
  (g, w1.Write data)

end startHttpEndpoint

/-! ## The running process -/

/-- The state of the running process: the package-level variables, the health
service registered by `startGrpcEndpoint` and the `started` variable captured
by the handlers of `startHttpEndpoint`. -/
structure System where
  globals : Globals
  healthService : HealthChecker
  httpStarted : Int
deriving DecidableEq

/-- A request that the process can receive. -/
inductive Request where
  | Check (req : HealthCheckRequest)
  | Watch (req : HealthCheckRequest) (server : List HealthCheckResponse)
  | makeNotServing
  | makeServing
  | healthcheck
deriving DecidableEq

/-- What the caller of a request observes. -/
inductive Reply where
  | rpc (resp : Option HealthCheckResponse) (err : Option StatusError)
  | stream (server : List HealthCheckResponse) (err : Option StatusError)
  | http (w : ResponseWriter)
deriving DecidableEq

/-- One request served to completion when the monotonic clock reads `now`. -/
def System.serve (durationString : Int → String) (sys : System) (now : Int) :
    Request → System × Reply
  | Request.Check req =>
    let r := sys.healthService.Check sys.globals now req
    (sys, Reply.rpc r.1 r.2)
  | Request.Watch req server =>
    let r := sys.healthService.Watch req server
    (sys, Reply.stream r.1 r.2)
  | Request.makeNotServing =>
    let r := startHttpEndpoint.makeNotServing durationString sys.httpStarted sys.globals now
      ResponseWriter.fresh
    ({ sys with globals := r.1 }, Reply.http r.2)
  | Request.makeServing =>
    let r := startHttpEndpoint.makeServing durationString sys.httpStarted sys.globals now
      ResponseWriter.fresh
    ({ sys with globals := r.1 }, Reply.http r.2)
  | Request.healthcheck =>
    let r := startHttpEndpoint.healthcheck durationString sys.httpStarted sys.globals now
      ResponseWriter.fresh
    ({ sys with globals := r.1 }, Reply.http r.2)

/-- The two commands that write the override flag. -/
inductive OverrideCommand where
  | makeServing
  | makeNotServing
deriving DecidableEq

/-- The request that carries an override command. -/
def OverrideCommand.toRequest : OverrideCommand → Request
  | OverrideCommand.makeServing => Request.makeServing
  | OverrideCommand.makeNotServing => Request.makeNotServing

/-! ## Rounding to the `float64` grid

A grid value is a natural number `m * 2 ^ j` with `m < 2 ^ 53`.  Rounding never
crosses a grid value: it is monotone against the grid, and it fixes the grid. -/

namespace Float64

theorem roundHalfEven_cases (p q : Nat) :
    roundHalfEven p q = p / q ∨ (roundHalfEven p q = p / q + 1 ∧ 0 < p % q) := by
  simp only [roundHalfEven]
  split_ifs with h1 h2 h3
  · exact Or.inl rfl
  · exact Or.inr ⟨rfl, by omega⟩
  · exact Or.inl rfl
  · refine Or.inr ⟨rfl, ?_⟩
    rcases Nat.eq_zero_or_pos q with hq | hq
    · subst hq
      simp at h3
    · omega

theorem div_le_roundHalfEven (p q : Nat) : p / q ≤ roundHalfEven p q := by
  rcases roundHalfEven_cases p q with h | ⟨h, _⟩ <;> omega

theorem le_roundHalfEven {p q z : Nat} (hq : 0 < q) (h : z * q ≤ p) :
    z ≤ roundHalfEven p q :=
  le_trans ((Nat.le_div_iff_mul_le hq).2 h) (div_le_roundHalfEven p q)

theorem roundHalfEven_le {p q z : Nat} (hq : 0 < q) (h : p ≤ z * q) :
    roundHalfEven p q ≤ z := by
  have hn : p / q ≤ z := by
    calc p / q ≤ z * q / q := Nat.div_le_div_right h
      _ = z := Nat.mul_div_cancel z hq
  rcases roundHalfEven_cases p q with h1 | ⟨h1, hr⟩
  · omega
  · rw [h1]
    by_contra hc
    have hz : z = p / q := by omega
    have hdm := Nat.div_add_mod p q
    rw [hz] at h
    have : q * (p / q) = p / q * q := Nat.mul_comm _ _
    omega

/-- With enough halvings allowed, `n` lies in the binade that `quantumExp` names. -/
theorem quantumExp_spec : ∀ (fuel n : Nat), n ≤ fuel →
    n < 2 ^ (53 + quantumExp fuel n) ∧
      (quantumExp fuel n = 0 ∨ 2 ^ (52 + quantumExp fuel n) ≤ n)
  | 0, n, h => by
    have : n = 0 := by omega
    subst this
    simp [quantumExp]
  | fuel + 1, n, h => by
    unfold quantumExp
    split_ifs with hlt
    · exact ⟨by simpa using hlt, Or.inl rfl⟩
    · have hn : n / 2 ≤ fuel := by omega
      obtain ⟨h1, h2⟩ := quantumExp_spec fuel (n / 2) hn
      have e1 : 2 ^ (53 + (quantumExp fuel (n / 2) + 1)) = 2 * 2 ^ (53 + quantumExp fuel (n / 2)) := by
        rw [← Nat.add_assoc, Nat.pow_succ, Nat.mul_comm]
      have e2 : 2 ^ (52 + (quantumExp fuel (n / 2) + 1)) = 2 * 2 ^ (52 + quantumExp fuel (n / 2)) := by
        rw [← Nat.add_assoc, Nat.pow_succ, Nat.mul_comm]
      refine ⟨by rw [e1]; omega, Or.inr ?_⟩
      rw [e2]
      rcases h2 with h2 | h2
      · rw [h2]; simp only [Nat.add_zero]; omega
      · omega

theorem grid_dvd_or_lt {m : Nat} (hm : m < 2 ^ 53) (j k : Nat) :
    2 ^ k ∣ m * 2 ^ j ∨ (0 < k ∧ m * 2 ^ j < 2 ^ (52 + k)) := by
  rcases le_or_lt k j with h | h
  · exact Or.inl (Dvd.dvd.mul_left (Nat.pow_dvd_pow 2 h) m)
  · refine Or.inr ⟨by omega, ?_⟩
    have h1 : m * 2 ^ j < 2 ^ 53 * 2 ^ j := Nat.mul_lt_mul_of_pos_right hm (Nat.pow_pos (by decide))
    have h2 : 2 ^ 53 * 2 ^ j = 2 ^ (53 + j) := (Nat.pow_add 2 53 j).symm
    have h3 : 2 ^ (53 + j) ≤ 2 ^ (52 + k) := Nat.pow_le_pow_right (by decide) (by omega)
    omega

/-- Rounding does not fall below a grid value that the fraction reaches. -/
theorem le_roundNat {m j p q : Nat} (hm : m < 2 ^ 53) (hq : 0 < q)
    (h : m * 2 ^ j * q ≤ p) : m * 2 ^ j ≤ roundNat p q := by
  simp only [roundNat]
  obtain ⟨-, hk⟩ := quantumExp_spec (p / q) (p / q) (Nat.le_refl _)
  generalize quantumExp (p / q) (p / q) = k at hk
  have h2k : 0 < 2 ^ k := Nat.pow_pos (by decide)
  have hq2 : 0 < q * 2 ^ k := Nat.mul_pos hq h2k
  rcases grid_dvd_or_lt hm j k with ⟨c, hc⟩ | ⟨hkpos, hlt⟩
  · rw [hc, Nat.mul_comm (2 ^ k) c]
    apply Nat.mul_le_mul_right
    apply le_roundHalfEven hq2
    calc c * (q * 2 ^ k) = 2 ^ k * c * q := by ring
      _ = m * 2 ^ j * q := by rw [hc]
      _ ≤ p := h
  · have hn : 2 ^ (52 + k) ≤ p / q := by
      rcases hk with hk | hk
      · omega
      · exact hk
    have h3 : 2 ^ 52 ≤ roundHalfEven p (q * 2 ^ k) := by
      apply le_roundHalfEven hq2
      have h4 : p / q * q ≤ p := Nat.div_mul_le_self p q
      have h5 : 2 ^ (52 + k) * q ≤ p / q * q := Nat.mul_le_mul_right q hn
      calc 2 ^ 52 * (q * 2 ^ k) = 2 ^ (52 + k) * q := by rw [Nat.pow_add]; ring
        _ ≤ p := le_trans h5 h4
    have h6 : 2 ^ 52 * 2 ^ k ≤ roundHalfEven p (q * 2 ^ k) * 2 ^ k :=
      Nat.mul_le_mul_right _ h3
    rw [← Nat.pow_add] at h6
    omega

/-- Rounding does not rise above a grid value that the fraction stays under. -/
theorem roundNat_le {m j p q : Nat} (hm : m < 2 ^ 53) (hq : 0 < q)
    (h : p ≤ m * 2 ^ j * q) : roundNat p q ≤ m * 2 ^ j := by
  simp only [roundNat]
  obtain ⟨-, hk⟩ := quantumExp_spec (p / q) (p / q) (Nat.le_refl _)
  generalize quantumExp (p / q) (p / q) = k at hk
  have h2k : 0 < 2 ^ k := Nat.pow_pos (by decide)
  have hq2 : 0 < q * 2 ^ k := Nat.mul_pos hq h2k
  have hny : p / q ≤ m * 2 ^ j := by
    calc p / q ≤ m * 2 ^ j * q / q := Nat.div_le_div_right h
      _ = m * 2 ^ j := Nat.mul_div_cancel _ hq
  rcases grid_dvd_or_lt hm j k with ⟨c, hc⟩ | ⟨hkpos, hlt⟩
  · rw [hc, Nat.mul_comm (2 ^ k) c]
    apply Nat.mul_le_mul_right
    apply roundHalfEven_le hq2
    calc p ≤ m * 2 ^ j * q := h
      _ = 2 ^ k * c * q := by rw [hc]
      _ = c * (q * 2 ^ k) := by ring
  · rcases hk with hk | hk <;> omega

/-- A grid value is represented exactly. -/
theorem roundNat_grid {m j : Nat} (hm : m < 2 ^ 53) : roundNat (m * 2 ^ j) 1 = m * 2 ^ j :=
  Nat.le_antisymm (roundNat_le hm Nat.one_pos (by omega)) (le_roundNat hm Nat.one_pos (by omega))

theorem round_of_nonneg {p : Int} (hp : 0 ≤ p) (q : Nat) :
    round p q = (roundNat p.toNat q : Int) := by
  simp [round, hp]

theorem round_of_neg {p : Int} (hp : p < 0) (q : Nat) :
    round p q = -(roundNat (-p).toNat q : Int) := by
  have : ¬ (0 ≤ p) := by omega
  simp [round, this]

theorem round_nonneg {p : Int} (hp : 0 ≤ p) (q : Nat) : 0 ≤ round p q := by
  rw [round_of_nonneg hp]
  exact Int.ofNat_nonneg _

theorem round_nonpos_of_neg {p : Int} (hp : p < 0) (q : Nat) : round p q ≤ 0 := by
  rw [round_of_neg hp]
  exact neg_nonpos.2 (Nat.cast_nonneg _)

theorem le_round {m j q : Nat} {p : Int} (hm : m < 2 ^ 53) (hq : 0 < q)
    (h : ((m * 2 ^ j * q : Nat) : Int) ≤ p) : ((m * 2 ^ j : Nat) : Int) ≤ round p q := by
  have hp : 0 ≤ p := le_trans (Int.ofNat_nonneg _) h
  rw [round_of_nonneg hp]
  apply Int.ofNat_le.2
  apply le_roundNat hm hq
  generalize m * 2 ^ j * q = y at h ⊢
  omega

theorem round_le {m j q : Nat} {p : Int} (hm : m < 2 ^ 53) (hq : 0 < q) (hp : 0 ≤ p)
    (h : p ≤ ((m * 2 ^ j * q : Nat) : Int)) : round p q ≤ ((m * 2 ^ j : Nat) : Int) := by
  rw [round_of_nonneg hp]
  apply Int.ofNat_le.2
  apply roundNat_le hm hq
  generalize m * 2 ^ j * q = y at h ⊢
  omega

theorem round_le_neg {m j q : Nat} {p : Int} (hm : m < 2 ^ 53) (hq : 0 < q) (hp : p < 0)
    (h : p ≤ -((m * 2 ^ j * q : Nat) : Int)) : round p q ≤ -((m * 2 ^ j : Nat) : Int) := by
  rw [round_of_neg hp]
  have h1 : m * 2 ^ j ≤ roundNat (-p).toNat q := by
    apply le_roundNat hm hq
    generalize m * 2 ^ j * q = y at h ⊢
    omega
  exact neg_le_neg (Int.ofNat_le.2 h1)

theorem two_pow_pos (k : Nat) : 0 < 2 ^ k :=
  Nat.pow_pos (by decide)

theorem unit_pos : 0 < unit :=
  two_pow_pos 1074

set_option exponentiation.threshold 2000 in
theorem unit_eq : unit = 2 ^ 30 * 2 ^ 1044 := by
  unfold unit
  exact Nat.pow_add 2 30 1044

theorem unit_eq_grid : unit = 1 * 2 ^ 1074 := by
  unfold unit
  exact (Nat.one_mul _).symm

theorem ofInt_nonneg {n : Int} (hn : 0 ≤ n) : 0 ≤ (ofInt n).units :=
  round_nonneg (Int.mul_nonneg hn (Int.ofNat_nonneg _)) 1

/-- An integer below `2^53` is converted exactly. -/
theorem ofInt_of_lt {n : Nat} (hn : n < 2 ^ 53) :
    (ofInt (n : Int)).units = ((n * unit : Nat) : Int) := by
  have hp : (0 : Int) ≤ (n : Int) * (unit : Int) :=
    Int.mul_nonneg (Int.ofNat_nonneg _) (Int.ofNat_nonneg _)
  have e : ((n : Int) * (unit : Int)).toNat = n * 2 ^ 1074 := by
    rw [← Int.natCast_mul, Int.toNat_natCast]
    rfl
  show round ((n : Int) * (unit : Int)) 1 = _
  rw [round_of_nonneg hp, e, roundNat_grid hn]
  rfl

theorem le_ofInt_of_le {n : Int} (hn : 2 ^ 53 ≤ n) :
    ((2 ^ 53 * unit : Nat) : Int) ≤ (ofInt n).units := by
  have e : ∀ k : Nat, 2 ^ 53 * (1 * 2 ^ k) = 2 ^ 52 * 2 ^ (k + 1) := by
    intro k
    rw [Nat.pow_succ]
    ring
  have e1 : (2 ^ 53 * unit : Nat) = 2 ^ 52 * 2 ^ (1074 + 1) := by
    rw [unit_eq_grid]
    exact e 1074
  rw [e1]
  apply le_round (by decide) Nat.one_pos
  rw [Nat.mul_one, ← e1]
  push_cast
  exact Int.mul_le_mul_of_nonneg_right hn (Int.ofNat_nonneg _)

theorem ofInt_le_neg_unit {n : Int} (hn : n ≤ -1) : (ofInt n).units ≤ -(unit : Int) := by
  have hu : (0 : Int) < (unit : Int) := Int.ofNat_lt.2 unit_pos
  have hp : n * (unit : Int) < 0 := Int.mul_neg_of_neg_of_pos (by omega) hu
  have h := round_le_neg (m := 1) (j := 1074) (q := 1) (p := n * (unit : Int))
    (by decide) Nat.one_pos hp (by
      rw [Nat.mul_one, ← unit_eq_grid]
      have := Int.mul_le_mul_of_nonneg_right hn (le_of_lt hu)
      omega)
  rw [← unit_eq_grid] at h
  exact h

theorem roundHalfEven_succ (p q : Nat) :
    roundHalfEven p q = p / q ∨ (roundHalfEven p q = p / q + 1 ∧ q ≤ 2 * (p % q)) := by
  simp only [roundHalfEven]
  split_ifs with h1 h2 h3
  · exact Or.inl rfl
  · exact Or.inr ⟨rfl, by omega⟩
  · exact Or.inl rfl
  · exact Or.inr ⟨rfl, by omega⟩

theorem roundHalfEven_le_of_lt_mid {p q z : Nat} (h : 2 * p < (2 * z + 1) * q) :
    roundHalfEven p q ≤ z := by
  have hdm := Nat.div_add_mod p q
  have hq : 0 < q := by
    rcases Nat.eq_zero_or_pos q with h0 | h0
    · subst h0
      simp at h
    · exact h0
  rcases roundHalfEven_succ p q with h1 | ⟨h1, hr⟩
  · rw [h1]
    by_contra hc
    have h2 : (z + 1) * q ≤ p / q * q := Nat.mul_le_mul_right q (by omega)
    have h3 : q * (p / q) = p / q * q := Nat.mul_comm _ _
    have h4 : (2 * z + 1) * q = 2 * (z * q) + q := by ring
    have h5 : (z + 1) * q = z * q + q := by ring
    omega
  · rw [h1]
    by_contra hc
    have h2 : z * q ≤ p / q * q := Nat.mul_le_mul_right q (by omega)
    have h3 : q * (p / q) = p / q * q := Nat.mul_comm _ _
    have h4 : (2 * z + 1) * q = 2 * (z * q) + q := by ring
    omega

theorem quantumExp_eq {n k : Nat} (hk : 0 < k) (h1 : 2 ^ (52 + k) ≤ n) (h2 : n < 2 ^ (53 + k)) :
    quantumExp n n = k := by
  obtain ⟨h3, h4⟩ := quantumExp_spec n n (Nat.le_refl _)
  generalize quantumExp n n = c at h3 h4
  have hlt : 52 + k < 53 + c :=
    (Nat.pow_lt_pow_iff_right (by decide : 1 < 2)).1 (lt_of_le_of_lt h1 h3)
  rcases h4 with h4 | h4
  · omega
  · have hlt2 : 52 + c < 53 + k :=
      (Nat.pow_lt_pow_iff_right (by decide : 1 < 2)).1 (lt_of_le_of_lt h4 h2)
    omega

/-- Below the midpoint of two neighbours of the grid, rounding takes the lower one. -/
theorem roundNat_le_of_lt_mid {p k z : Nat} (hk : 0 < k) (h1 : 2 ^ (52 + k) ≤ p)
    (h2 : p < 2 ^ (53 + k)) (h : 2 * p < (2 * z + 1) * 2 ^ k) : roundNat p 1 ≤ z * 2 ^ k := by
  simp only [roundNat, Nat.div_one, Nat.one_mul]
  rw [quantumExp_eq hk h1 h2]
  exact Nat.mul_le_mul_right _ (roundHalfEven_le_of_lt_mid h)

/-! ### The fraction `float64(nsec)/1e9` -/

theorem billion_pos : 0 < 1000000000 * unit :=
  Nat.mul_pos (by decide) unit_pos

theorem ofInt_billion : (ofInt 1000000000).units = ((1000000000 * unit : Nat) : Int) :=
  ofInt_of_lt (n := 1000000000) (by decide)

theorem div_billion (a : Float64) :
    (div a (ofInt 1000000000)).units = round (a.units * (unit : Int)) (1000000000 * unit) := by
  have hpos : (0 : Int) < ((1000000000 * unit : Nat) : Int) := Int.ofNat_lt.2 billion_pos
  show round (a.units * (ofInt 1000000000).units.sign * (unit : Int))
    (ofInt 1000000000).units.natAbs = _
  rw [ofInt_billion, Int.sign_eq_one_of_pos hpos, Int.natAbs_ofNat, Int.mul_one]

theorem frac_nonneg (r : Nat) : 0 ≤ (div (ofInt (r : Int)) (ofInt 1000000000)).units := by
  rw [div_billion]
  exact round_nonneg (Int.mul_nonneg (ofInt_nonneg (Int.ofNat_nonneg r)) (Int.ofNat_nonneg _)) _

/-- The fraction of a second is at most `1 - 2^-30`. -/
theorem frac_le {r : Nat} (hr : r < 1000000000) :
    (div (ofInt (r : Int)) (ofInt 1000000000)).units ≤ (((2 ^ 30 - 1) * 2 ^ 1044 : Nat) : Int) := by
  rw [div_billion, ofInt_of_lt (lt_trans hr (by decide))]
  apply round_le (by decide) billion_pos (Int.mul_nonneg (Int.ofNat_nonneg _) (Int.ofNat_nonneg _))
  rw [← Int.natCast_mul]
  apply Int.ofNat_le.2
  rw [unit_eq]
  generalize (2 : Nat) ^ 1044 = A
  have h1 : r * 2 ^ 30 ≤ (2 ^ 30 - 1) * 1000000000 := by omega
  have h2 := Nat.mul_le_mul_right (A * (2 ^ 30 * A)) h1
  calc r * (2 ^ 30 * A) * (2 ^ 30 * A) = r * 2 ^ 30 * (A * (2 ^ 30 * A)) := by ring
    _ ≤ (2 ^ 30 - 1) * 1000000000 * (A * (2 ^ 30 * A)) := h2
    _ = (2 ^ 30 - 1) * A * (1000000000 * (2 ^ 30 * A)) := by ring

theorem billion_le_unit : 1000000000 ≤ unit := by
  rw [unit_eq]
  have h : 1 ≤ 2 ^ 1044 := two_pow_pos 1044
  generalize (2 : Nat) ^ 1044 = A at h
  omega

theorem frac_neg {r : Int} (hr : r ≤ -1) :
    (div (ofInt r) (ofInt 1000000000)).units ≤ -1 := by
  rw [div_billion]
  have hu : (0 : Int) < (unit : Int) := Int.ofNat_lt.2 unit_pos
  have ha := ofInt_le_neg_unit hr
  have hp : (ofInt r).units * (unit : Int) < 0 := Int.mul_neg_of_neg_of_pos (by omega) hu
  have h := round_le_neg (m := 1) (j := 0) (q := 1000000000 * unit)
    (p := (ofInt r).units * (unit : Int)) (by decide) billion_pos hp (by
      have h1 := Int.mul_le_mul_of_nonneg_right ha (le_of_lt hu)
      have h2 : ((1000000000 : Nat) : Int) * (unit : Int) ≤ (unit : Int) * (unit : Int) :=
        Int.mul_le_mul_of_nonneg_right (Int.ofNat_le.2 billion_le_unit) (le_of_lt hu)
      have e : ((1 * 2 ^ 0 * (1000000000 * unit) : Nat) : Int)
          = ((1000000000 : Nat) : Int) * (unit : Int) := by
        push_cast
        ring
      rw [e]
      have e2 : -(unit : Int) * (unit : Int) = -((unit : Int) * (unit : Int)) := by ring
      rw [e2] at h1
      omega)
  simpa using h

theorem round_zero {q : Nat} (hq : 0 < q) : round 0 q = 0 := by
  have h := round_le (m := 0) (j := 0) (q := q) (p := 0) (by decide) hq (le_refl 0) (by simp)
  have h2 := round_nonneg (le_refl (0 : Int)) q
  simp at h
  omega

theorem ofInt_zero : (ofInt 0).units = 0 := by
  show round (0 * (unit : Int)) 1 = 0
  rw [Int.zero_mul]
  exact round_zero Nat.one_pos

theorem ofInt_nonpos {n : Int} (hn : n ≤ 0) : (ofInt n).units ≤ 0 := by
  rcases lt_or_eq_of_le hn with h | h
  · have hu : (0 : Int) < (unit : Int) := Int.ofNat_lt.2 unit_pos
    exact round_nonpos_of_neg (Int.mul_neg_of_neg_of_pos h hu) 1
  · rw [h, ofInt_zero]

theorem frac_nonpos {r : Int} (hr : r ≤ 0) :
    (div (ofInt r) (ofInt 1000000000)).units ≤ 0 := by
  rcases lt_or_eq_of_le hr with h | h
  · have := frac_neg (r := r) (by omega)
    omega
  · rw [h, div_billion, ofInt_zero, Int.zero_mul, round_zero billion_pos]

set_option exponentiation.threshold 2000 in
theorem unit_eq_fine : unit = 2 ^ 53 * 2 ^ 1021 := by
  unfold unit
  exact Nat.pow_add 2 53 1021

set_option exponentiation.threshold 2000 in
theorem pow_1045 : 2 ^ 1045 = 2 ^ 24 * 2 ^ 1021 :=
  Nat.pow_add 2 24 1021

set_option exponentiation.threshold 2000 in
theorem pow_1097 : 2 ^ (52 + 1045) = 2 ^ 76 * 2 ^ 1021 :=
  Nat.pow_add 2 76 1021

set_option exponentiation.threshold 2000 in
theorem pow_1098 : 2 ^ (53 + 1045) = 2 ^ 77 * 2 ^ 1021 :=
  Nat.pow_add 2 77 1021

/-- The fraction of a second is at most `1 - 2^-30 - 2^-53`. -/
theorem frac_le_fine {r : Nat} (hr : r < 1000000000) :
    (div (ofInt (r : Int)) (ofInt 1000000000)).units
      ≤ (((2 ^ 53 - 2 ^ 23 - 1) * 2 ^ 1021 : Nat) : Int) := by
  rw [div_billion, ofInt_of_lt (lt_trans hr (by decide))]
  apply round_le (by decide) billion_pos (Int.mul_nonneg (Int.ofNat_nonneg _) (Int.ofNat_nonneg _))
  rw [← Int.natCast_mul]
  apply Int.ofNat_le.2
  rw [unit_eq_fine]
  generalize (2 : Nat) ^ 1021 = A
  have h1 : r * 2 ^ 53 ≤ (2 ^ 53 - 2 ^ 23 - 1) * 1000000000 := by omega
  have h2 := Nat.mul_le_mul_right (A * (2 ^ 53 * A)) h1
  calc r * (2 ^ 53 * A) * (2 ^ 53 * A) = r * 2 ^ 53 * (A * (2 ^ 53 * A)) := by ring
    _ ≤ (2 ^ 53 - 2 ^ 23 - 1) * 1000000000 * (A * (2 ^ 53 * A)) := h2
    _ = (2 ^ 53 - 2 ^ 23 - 1) * A * (1000000000 * (2 ^ 53 * A)) := by ring

/-- Between `2^23` and `2^24` seconds the sum of the whole seconds and the fraction
is rounded to less than the next whole second. -/
theorem add_frac_lt {S F : Nat} (h1 : 8388608 ≤ S) (h2 : S < 16777216)
    (hF : F ≤ (2 ^ 53 - 2 ^ 23 - 1) * 2 ^ 1021) :
    roundNat (S * unit + F) 1 < (S + 1) * unit := by
  have hA : 1 ≤ 2 ^ 1021 := two_pow_pos 1021
  have hle : roundNat (S * unit + F) 1 ≤ ((S + 1) * 2 ^ 29 - 1) * 2 ^ 1045 := by
    apply roundNat_le_of_lt_mid (by decide)
    · rw [pow_1097, unit_eq_fine]
      generalize (2 : Nat) ^ 1021 = A at hA hF
      have hx : S * (2 ^ 53 * A) = 2 ^ 53 * (S * A) := by ring
      have hs := Nat.mul_le_mul_right A h1
      rw [hx]
      generalize S * A = X at hs ⊢
      omega
    · rw [pow_1098, unit_eq_fine]
      generalize (2 : Nat) ^ 1021 = A at hA hF
      have hx : S * (2 ^ 53 * A) = 2 ^ 53 * (S * A) := by ring
      have hs : (S + 1) * A ≤ 16777216 * A := Nat.mul_le_mul_right A h2
      rw [Nat.add_mul, Nat.one_mul] at hs
      rw [hx]
      generalize S * A = X at hs ⊢
      omega
    · rw [pow_1045, unit_eq_fine]
      generalize (2 : Nat) ^ 1021 = A at hA hF
      have e : 2 * ((S + 1) * 2 ^ 29 - 1) + 1 = (S + 1) * 2 ^ 30 - 1 := by omega
      obtain ⟨c, hc⟩ : ∃ c, (S + 1) * 2 ^ 30 - 1 = S * 2 ^ 30 + c ∧ c = 2 ^ 30 - 1 :=
        ⟨2 ^ 30 - 1, by omega, rfl⟩
      rw [e, hc.1, hc.2]
      have hx : 2 * (S * (2 ^ 53 * A) + F) = 2 ^ 54 * (S * A) + 2 * F := by ring
      have hy : (S * 2 ^ 30 + (2 ^ 30 - 1)) * (2 ^ 24 * A)
          = 2 ^ 54 * (S * A) + (2 ^ 30 - 1) * 2 ^ 24 * A := by ring
      rw [hx, hy]
      generalize S * A = X
      omega
  refine lt_of_le_of_lt hle ?_
  rw [pow_1045, unit_eq_fine]
  generalize (2 : Nat) ^ 1021 = A at hA
  have e : (S + 1) * (2 ^ 53 * A) = (S + 1) * 2 ^ 29 * (2 ^ 24 * A) := by ring
  rw [e]
  exact Nat.mul_lt_mul_of_pos_right (by omega) (by omega)

end Float64

/-! ## `Duration.Seconds` against the exact elapsed time -/

theorem Second_eq : Second = 1000000000 := rfl

theorem tdiv_tmod_of_nonneg {d : Int} (hd : 0 ≤ d) :
    ∃ S R : Nat, R < 1000000000 ∧ d = (S : Int) * 1000000000 + (R : Int) ∧
      Int.tdiv d Second = (S : Int) ∧ Int.tmod d Second = (R : Int) := by
  refine ⟨(d / 1000000000).toNat, (d % 1000000000).toNat, ?_, ?_, ?_, ?_⟩
  · omega
  · omega
  · rw [Second_eq, Int.tdiv_eq_ediv hd (by decide)]
    omega
  · rw [Second_eq, Int.tmod_eq_emod hd (by decide)]
    omega

theorem tdiv_tmod_of_neg {d : Int} (hd : d < 0) :
    ∃ S R : Nat, R < 1000000000 ∧ d = -((S : Int) * 1000000000 + (R : Int)) ∧
      Int.tdiv d Second = -(S : Int) ∧ Int.tmod d Second = -(R : Int) := by
  obtain ⟨S, R, hR, he, h1, h2⟩ := tdiv_tmod_of_nonneg (d := -d) (by omega)
  have hdiv : Int.tdiv d Second = -(S : Int) := by
    have := Int.neg_tdiv (-d) Second
    rw [Int.neg_neg] at this
    rw [this, h1]
  refine ⟨S, R, hR, by omega, hdiv, ?_⟩
  rw [Int.tmod_def, hdiv, Second_eq]
  omega

theorem Seconds_units (d : Int) :
    (Duration.Seconds d).units =
      Float64.round ((Float64.ofInt (Int.tdiv d Second)).units
        + (Float64.div (Float64.ofInt (Int.tmod d Second)) (Float64.ofInt 1000000000)).units) 1 :=
  rfl

/-- A negative duration has a negative number of seconds. -/
theorem Seconds_neg {d : Int} (hd : d < 0) : (Duration.Seconds d).units ≤ -1 := by
  obtain ⟨S, R, hR, he, h1, h2⟩ := tdiv_tmod_of_neg hd
  rw [Seconds_units, h1, h2]
  have ha := Float64.ofInt_nonpos (n := -(S : Int)) (by omega)
  have hb := Float64.frac_nonpos (r := -(R : Int)) (by omega)
  have hsum : (Float64.ofInt (-(S : Int))).units
      + (Float64.div (Float64.ofInt (-(R : Int))) (Float64.ofInt 1000000000)).units ≤ -1 := by
    rcases Nat.eq_zero_or_pos R with hR0 | hR0
    · have hS : (-(S : Int)) ≤ -1 := by omega
      have h3 := Float64.ofInt_le_neg_unit hS
      have h4 : (1 : Int) ≤ (Float64.unit : Int) := Int.ofNat_le.2 Float64.unit_pos
      omega
    · have h3 := Float64.frac_neg (r := -(R : Int)) (by omega)
      omega
  have h := Float64.round_le_neg (m := 1) (j := 0) (q := 1) (by decide) Nat.one_pos
    (lt_of_le_of_lt hsum (by decide)) (by simpa using hsum)
  simpa using h

/-- An elapsed time of at least `dl` seconds gives `Seconds() >= float64(dl)`. -/
theorem ofInt_le_Seconds {dl : Int} {d : Int} (h0 : 0 ≤ dl) (h : dl * Second ≤ d)
    (hmax : d ≤ maxDuration) : (Float64.ofInt dl).units ≤ (Duration.Seconds d).units := by
  have hd : 0 ≤ d := le_trans (Int.mul_nonneg h0 (by decide)) h
  obtain ⟨S, R, hR, he, h1, h2⟩ := tdiv_tmod_of_nonneg hd
  rw [Second_eq] at h
  have hmax2 : d ≤ 9223372036854775807 := hmax
  obtain ⟨n, rfl⟩ := Int.eq_ofNat_of_zero_le h0
  have hnS : n ≤ S := by omega
  have hS : S < 2 ^ 53 := by
    have : S ≤ 9223372036 := by omega
    exact lt_of_le_of_lt this (by decide)
  have hn : n < 2 ^ 53 := lt_of_le_of_lt hnS hS
  rw [Seconds_units, h1, h2, Float64.ofInt_of_lt hn, Float64.ofInt_of_lt hS]
  have hfrac := Float64.frac_nonneg R
  have hmul : n * Float64.unit ≤ S * Float64.unit := Nat.mul_le_mul_right _ hnS
  have hgrid : n * Float64.unit = n * 2 ^ 1074 := rfl
  rw [hgrid]
  apply Float64.le_round hn Nat.one_pos
  rw [Nat.mul_one, ← hgrid]
  have := Int.ofNat_le.2 hmul
  omega

/-- Below `2^24` seconds `Duration.Seconds` stays under the next whole second. -/
theorem sum_lt_succ {S R : Nat} (hS : S < 16777216) (hR : R < 1000000000) :
    Float64.round ((Float64.ofInt (S : Int)).units
        + (Float64.div (Float64.ofInt (R : Int)) (Float64.ofInt 1000000000)).units) 1
      < (((S + 1) * Float64.unit : Nat) : Int) := by
  have hS53 : S < 2 ^ 53 := lt_trans hS (by decide)
  have hfrac0 := Float64.frac_nonneg R
  rw [Float64.ofInt_of_lt hS53]
  rcases lt_or_le S 8388608 with hlow | hhigh
  · have hfrac := Float64.frac_le hR
    have hm : (S + 1) * 2 ^ 30 - 1 < 2 ^ 53 := by omega
    have hup : Float64.round (((S * Float64.unit : Nat) : Int)
        + (Float64.div (Float64.ofInt (R : Int)) (Float64.ofInt 1000000000)).units) 1
        ≤ ((((S + 1) * 2 ^ 30 - 1) * 2 ^ 1044 : Nat) : Int) := by
      apply Float64.round_le hm Nat.one_pos (by omega)
      rw [Nat.mul_one]
      have e : ((S + 1) * 2 ^ 30 - 1) * 2 ^ 1044
          = S * Float64.unit + (2 ^ 30 - 1) * 2 ^ 1044 := by
        rw [Float64.unit_eq]
        generalize (2 : Nat) ^ 1044 = A
        have e1 : (S + 1) * 2 ^ 30 - 1 = S * 2 ^ 30 + (2 ^ 30 - 1) := by omega
        rw [e1]
        ring
      rw [e, Int.natCast_add]
      generalize ((2 ^ 30 - 1) * 2 ^ 1044 : Nat) = B at hfrac ⊢
      omega
    refine lt_of_le_of_lt hup (Int.ofNat_lt.2 ?_)
    rw [Float64.unit_eq]
    have hA : 0 < 2 ^ 1044 := Float64.two_pow_pos 1044
    generalize (2 : Nat) ^ 1044 = A at hA
    have e1 : (S + 1) * (2 ^ 30 * A) = ((S + 1) * 2 ^ 30) * A := by ring
    rw [e1]
    exact Nat.mul_lt_mul_of_pos_right (by omega) hA
  · have hfrac := Float64.frac_le_fine hR
    obtain ⟨F, hF⟩ := Int.eq_ofNat_of_zero_le hfrac0
    rw [hF] at hfrac ⊢
    rw [← Int.natCast_add, Float64.round_of_nonneg (Int.ofNat_nonneg _), Int.toNat_natCast]
    exact Int.ofNat_lt.2 (Float64.add_frac_lt hhigh hS (Int.ofNat_le.1 hfrac))

/-- An elapsed time below `dl` seconds and below `2^24` seconds gives
`Seconds() < float64(dl)`. -/
theorem Seconds_lt_ofInt {dl : Int} {d : Int} (h0 : 0 ≤ dl) (h : d < dl * Second)
    (hsmall : d < 16777216 * Second) :
    (Duration.Seconds d).units < (Float64.ofInt dl).units := by
  rcases lt_or_le d 0 with hd | hd
  · have h1 := Seconds_neg hd
    have h2 := Float64.ofInt_nonneg h0
    omega
  · obtain ⟨S, R, hR, he, h1, h2⟩ := tdiv_tmod_of_nonneg hd
    rw [Second_eq] at h hsmall
    have hS : S < 16777216 := by omega
    have hSdl : (S : Int) + 1 ≤ dl := by omega
    have hlt := sum_lt_succ hS hR
    rw [Seconds_units, h1, h2]
    refine lt_of_lt_of_le hlt ?_
    rcases lt_or_le dl (2 ^ 53) with hdl | hdl
    · obtain ⟨n, rfl⟩ := Int.eq_ofNat_of_zero_le h0
      have hn : n < 2 ^ 53 := by exact_mod_cast hdl
      rw [Float64.ofInt_of_lt hn]
      apply Int.ofNat_le.2
      exact Nat.mul_le_mul_right _ (by omega)
    · refine le_trans ?_ (Float64.le_ofInt_of_le hdl)
      apply Int.ofNat_le.2
      exact Nat.mul_le_mul_right _ (by omega)

/-- A whole number of seconds below `2^53` is at most its conversion, also for
an integer too large to be converted exactly. -/
theorem mul_unit_le_ofInt {n : Nat} {dl : Int} (hn : n < 2 ^ 53) (h : (n : Int) ≤ dl) :
    ((n * Float64.unit : Nat) : Int) ≤ (Float64.ofInt dl).units := by
  rcases lt_or_le dl (2 ^ 53) with hdl | hdl
  · obtain ⟨k, rfl⟩ := Int.eq_ofNat_of_zero_le (le_trans (Int.ofNat_nonneg n) h)
    have hk : k < 2 ^ 53 := by exact_mod_cast hdl
    rw [Float64.ofInt_of_lt hk]
    apply Int.ofNat_le.2
    exact Nat.mul_le_mul_right _ (by omega)
  · refine le_trans ?_ (Float64.le_ofInt_of_le hdl)
    apply Int.ofNat_le.2
    exact Nat.mul_le_mul_right _ (le_of_lt hn)

/-- `Duration.Seconds` never exceeds the next whole second, and a whole number of
seconds is returned as it is. -/
theorem sum_le_succ {S R : Nat} (hS : S + 1 < 2 ^ 53) (hR : R < 1000000000) :
    Float64.round ((Float64.ofInt (S : Int)).units
        + (Float64.div (Float64.ofInt (R : Int)) (Float64.ofInt 1000000000)).units) 1
      ≤ (((S + 1) * Float64.unit : Nat) : Int) ∧
    (R = 0 →
      Float64.round ((Float64.ofInt (S : Int)).units
          + (Float64.div (Float64.ofInt (R : Int)) (Float64.ofInt 1000000000)).units) 1
        ≤ ((S * Float64.unit : Nat) : Int)) := by
  have hS53 : S < 2 ^ 53 := by omega
  have hfrac0 := Float64.frac_nonneg R
  have hfrac := Float64.frac_le hR
  have hgrid : ∀ n : Nat, n * Float64.unit = n * 2 ^ 1074 := fun _ => rfl
  have hB : (2 ^ 30 - 1) * 2 ^ 1044 ≤ Float64.unit := by
    rw [Float64.unit_eq]
    exact Nat.mul_le_mul_right _ (by decide)
  rw [Float64.ofInt_of_lt hS53]
  constructor
  · rw [hgrid (S + 1)]
    apply Float64.round_le hS Nat.one_pos (by omega)
    rw [Nat.mul_one, ← hgrid (S + 1), Nat.add_mul, Nat.one_mul, Int.natCast_add]
    have hB2 := Int.ofNat_le.2 hB
    generalize ((2 ^ 30 - 1) * 2 ^ 1044 : Nat) = B at hfrac hB2
    omega
  · intro hR0
    subst hR0
    have hz := Float64.frac_nonpos (r := ((0 : Nat) : Int)) (by simp)
    rw [hgrid S]
    apply Float64.round_le hS53 Nat.one_pos (by omega)
    rw [Nat.mul_one, ← hgrid S]
    omega

/-- An elapsed time of at least one second less than `dl` seconds gives
`Seconds() < float64(dl)`, at every uptime. -/
theorem Seconds_lt_ofInt_of_add_le {dl : Int} {d : Int} (h0 : 0 ≤ dl)
    (h : d + Second ≤ dl * Second) (hmax : d ≤ maxDuration) : (Duration.Seconds d).units < (Float64.ofInt dl).units := by
  rw [Second_eq] at h
  rcases lt_or_le d 0 with hd | hd
  · have h1 := Seconds_neg hd
    have h2 := Float64.ofInt_nonneg h0
    omega
  · obtain ⟨S, R, hR, he, h1, h2⟩ := tdiv_tmod_of_nonneg hd
    have hmax2 : d ≤ 9223372036854775807 := hmax
    have hS : S ≤ 9223372036 := by omega
    have hS1 : S + 1 < 2 ^ 53 := lt_of_le_of_lt (Nat.succ_le_succ hS) (by decide)
    have hS2 : S + 2 < 2 ^ 53 := lt_of_le_of_lt (Nat.succ_le_succ (Nat.succ_le_succ hS)) (by decide)
    obtain ⟨hle, hwhole⟩ := sum_le_succ hS1 hR
    have hu : 0 < Float64.unit := Float64.unit_pos
    rw [Seconds_units, h1, h2]
    rcases Nat.eq_zero_or_pos R with hR0 | hR0
    · have h3 := hwhole hR0
      have h4 : ((S : Nat) : Int) + 1 ≤ dl := by omega
      have h5 := @mul_unit_le_ofInt (S + 1) dl hS1 (by exact_mod_cast h4)
      have h6 : ((S * Float64.unit : Nat) : Int) < (((S + 1) * Float64.unit : Nat) : Int) :=
        Int.ofNat_lt.2 (Nat.mul_lt_mul_of_pos_right (Nat.lt_succ_self S) hu)
      omega
    · have h4 : ((S : Nat) : Int) + 2 ≤ dl := by omega
      have h5 := @mul_unit_le_ofInt (S + 2) dl hS2 (by exact_mod_cast h4)
      have h6 : (((S + 1) * Float64.unit : Nat) : Int) < (((S + 2) * Float64.unit : Nat) : Int) :=
        Int.ofNat_lt.2 (Nat.mul_lt_mul_of_pos_right (Nat.lt_succ_self (S + 1)) hu)
      omega

/-! ## The decision of `Check` -/

theorem Since_le_maxDuration (now t : Int) : Since now t ≤ maxDuration := by
  unfold Since subMono wrap64 maxDuration minDuration
  simp only []
  split_ifs <;> omega

theorem ge_of_le {dl d : Int} (h0 : 0 ≤ dl) (h : dl * Second ≤ d) (hmax : d ≤ maxDuration) :
    Float64.ge (Duration.Seconds d) (Float64.ofInt dl) = true := by
  unfold Float64.ge
  exact decide_eq_true (ofInt_le_Seconds h0 h hmax)

theorem ge_of_lt {dl d : Int} (h0 : 0 ≤ dl) (h : d < dl * Second)
    (hsmall : d < 16777216 * Second) :
    Float64.ge (Duration.Seconds d) (Float64.ofInt dl) = false := by
  unfold Float64.ge
  exact decide_eq_false (not_le.2 (Seconds_lt_ofInt h0 h hsmall))

/-- The result of `Check` for any other name. -/
theorem Check_of_ne {s : HealthChecker} {g : Globals} {now : Int} {req : HealthCheckRequest}
    (h : req.Service ≠ g.service) :
    s.Check g now req = (none, some { code := Code.NotFound, message := "unknown service" }) := by
  unfold HealthChecker.Check
  rw [if_pos h]

/-- The result of `Check` for the watched service name. -/
theorem Check_of_eq {s : HealthChecker} {g : Globals} {now : Int} {req : HealthCheckRequest}
    (h : req.Service = g.service) :
    s.Check g now req =
      (some { Status :=
          if ((match g.forceUnhealthy with
              | none => false
              | some b => b)
              || (decide (g.delayUnhealthySec ≥ 0)
                && Float64.ge (Duration.Seconds (Since now s.started))
                    (Float64.ofInt g.delayUnhealthySec))) = true
          then ServingStatus.NOT_SERVING else ServingStatus.SERVING }, none) := by
  unfold HealthChecker.Check
  rw [if_neg (not_not.2 h)]
  simp only []
  split_ifs <;> rfl

theorem Check_forced {s : HealthChecker} {g : Globals} {now : Int} {req : HealthCheckRequest}
    (h : req.Service = g.service) (hf : g.forceUnhealthy = some true) :
    s.Check g now req = (some { Status := ServingStatus.NOT_SERVING }, none) := by
  rw [Check_of_eq h, hf]
  simp

theorem Check_not_forced {s : HealthChecker} {g : Globals} {now : Int} {req : HealthCheckRequest}
    (h : req.Service = g.service) (hf : g.forceUnhealthy = none ∨ g.forceUnhealthy = some false) :
    s.Check g now req =
      (some { Status :=
          if (decide (g.delayUnhealthySec ≥ 0)
                && Float64.ge (Duration.Seconds (Since now s.started))
                    (Float64.ofInt g.delayUnhealthySec)) = true
          then ServingStatus.NOT_SERVING else ServingStatus.SERVING }, none) := by
  rw [Check_of_eq h]
  rcases hf with hf | hf <;> rw [hf] <;> simp

theorem Check_never {s : HealthChecker} {g : Globals} {now : Int} {req : HealthCheckRequest}
    (h : req.Service = g.service) (hf : g.forceUnhealthy = none ∨ g.forceUnhealthy = some false)
    (hd : g.delayUnhealthySec < 0) :
    s.Check g now req = (some { Status := ServingStatus.SERVING }, none) := by
  rw [Check_not_forced h hf]
  have : ¬ (g.delayUnhealthySec ≥ 0) := by omega
  simp [this]

theorem Check_reached {s : HealthChecker} {g : Globals} {now : Int} {req : HealthCheckRequest}
    (h : req.Service = g.service) (hd : 0 ≤ g.delayUnhealthySec)
    (he : g.delayUnhealthySec * Second ≤ Since now s.started) :
    s.Check g now req = (some { Status := ServingStatus.NOT_SERVING }, none) := by
  rw [Check_of_eq h, ge_of_le hd he (Since_le_maxDuration _ _)]
  simp [hd]

theorem Check_before {s : HealthChecker} {g : Globals} {now : Int} {req : HealthCheckRequest}
    (h : req.Service = g.service) (hf : g.forceUnhealthy = none ∨ g.forceUnhealthy = some false)
    (he : Since now s.started < g.delayUnhealthySec * Second)
    (hsmall : Since now s.started < 16777216 * Second) :
    s.Check g now req = (some { Status := ServingStatus.SERVING }, none) := by
  rcases lt_or_le g.delayUnhealthySec 0 with hd | hd
  · exact Check_never h hf hd
  · rw [Check_not_forced h hf, ge_of_lt hd he hsmall]
    simp

theorem ge_of_add_le {dl d : Int} (h0 : 0 ≤ dl) (h : d + Second ≤ dl * Second)
    (hmax : d ≤ maxDuration) :
    Float64.ge (Duration.Seconds d) (Float64.ofInt dl) = false := by
  unfold Float64.ge
  exact decide_eq_false (not_le.2 (Seconds_lt_ofInt_of_add_le h0 h hmax))

theorem Check_well_before {s : HealthChecker} {g : Globals} {now : Int}
    {req : HealthCheckRequest} (h : req.Service = g.service)
    (hf : g.forceUnhealthy = none ∨ g.forceUnhealthy = some false)
    (he : Since now s.started + Second ≤ g.delayUnhealthySec * Second) :
    s.Check g now req = (some { Status := ServingStatus.SERVING }, none) := by
  rcases lt_or_le g.delayUnhealthySec 0 with hd | hd
  · exact Check_never h hf hd
  · rw [Check_not_forced h hf, ge_of_add_le hd he (Since_le_maxDuration _ _)]
    simp

theorem Check_not_forced_iff {s : HealthChecker} {g : Globals} {now : Int}
    {req : HealthCheckRequest} (h : req.Service = g.service)
    (hf : g.forceUnhealthy = none ∨ g.forceUnhealthy = some false) :
    (s.Check g now req = (some { Status := ServingStatus.NOT_SERVING }, none) ∨
      s.Check g now req = (some { Status := ServingStatus.SERVING }, none)) ∧
    (s.Check g now req = (some { Status := ServingStatus.NOT_SERVING }, none) ↔
      0 ≤ g.delayUnhealthySec ∧
        (Float64.ofInt g.delayUnhealthySec).units
          ≤ (Duration.Seconds (Since now s.started)).units) := by
  rw [Check_not_forced h hf]
  constructor
  · split_ifs
    · exact Or.inl rfl
    · exact Or.inr rfl
  · simp [Float64.ge]

/-! ## The claims -/

set_option maxRecDepth 100000 in
set_option exponentiation.threshold 3000 in
/-- C1, counterexample.  With `delayUnhealthySec = 5` and the clock started at 0,
`/make-serving` is served at 2 s and a `Check` for the watched name at 6 s: the
answer is `NOT_SERVING`, not `SERVING`. -/
theorem makeServing_then_Check_past_deadline :
    (NewHealthChecker 0).Check
        (startHttpEndpoint.makeServing (fun _ => "") 0
          { init with delayUnhealthySec := 5, service := "svc" } 2000000000
          ResponseWriter.fresh).1
        6000000000 { Service := "svc" }
      = (some { Status := ServingStatus.NOT_SERVING }, none) := by
  decide

/-- C1, amended.  Once `/make-serving` has been served, a `Check` for the
watched service name answers as it does with no override: `NOT_SERVING` exactly
when `delayUnhealthySec >= 0` and `duration.Seconds() >= float64(delayUnhealthySec)`
hold, and `SERVING` otherwise.  So it answers `SERVING` when `delayUnhealthySec`
is negative, `NOT_SERVING` when `delayUnhealthySec` is non-negative and the
elapsed time has reached it, `SERVING` when the elapsed time is one second or
more short of `delayUnhealthySec` seconds, and `SERVING` when the elapsed time
is below both `delayUnhealthySec` seconds and `2^24` seconds: the command
withdraws a forced `NOT_SERVING` and leaves the time-based degrade in force. -/
theorem Check_after_makeServing (durationString : Int → String) (sys : System)
    (t now : Int) (req : HealthCheckRequest) (hreq : req.Service = sys.globals.service) :
    (((sys.serve durationString t Request.makeServing).1.serve durationString now
          (Request.Check req)).2
        = Reply.rpc (some { Status := ServingStatus.NOT_SERVING }) none ∨
      ((sys.serve durationString t Request.makeServing).1.serve durationString now
          (Request.Check req)).2
        = Reply.rpc (some { Status := ServingStatus.SERVING }) none) ∧
    (((sys.serve durationString t Request.makeServing).1.serve durationString now
          (Request.Check req)).2
        = Reply.rpc (some { Status := ServingStatus.NOT_SERVING }) none ↔
      0 ≤ sys.globals.delayUnhealthySec ∧
        (Float64.ofInt sys.globals.delayUnhealthySec).units
          ≤ (Duration.Seconds (Since now sys.healthService.started)).units) ∧
    (sys.globals.delayUnhealthySec < 0 →
      ((sys.serve durationString t Request.makeServing).1.serve durationString now
          (Request.Check req)).2
        = Reply.rpc (some { Status := ServingStatus.SERVING }) none) ∧
    (0 ≤ sys.globals.delayUnhealthySec →
      sys.globals.delayUnhealthySec * Second ≤ Since now sys.healthService.started →
      ((sys.serve durationString t Request.makeServing).1.serve durationString now
          (Request.Check req)).2
        = Reply.rpc (some { Status := ServingStatus.NOT_SERVING }) none) ∧
    (Since now sys.healthService.started + Second ≤ sys.globals.delayUnhealthySec * Second →
      ((sys.serve durationString t Request.makeServing).1.serve durationString now
          (Request.Check req)).2
        = Reply.rpc (some { Status := ServingStatus.SERVING }) none) ∧
    (Since now sys.healthService.started < sys.globals.delayUnhealthySec * Second →
      Since now sys.healthService.started < 16777216 * Second →
      ((sys.serve durationString t Request.makeServing).1.serve durationString now
          (Request.Check req)).2
        = Reply.rpc (some { Status := ServingStatus.SERVING }) none) := by
  have hreq1 : req.Service
      = ({ sys.globals with forceUnhealthy := some false } : Globals).service := hreq
  have hf : ({ sys.globals with forceUnhealthy := some false } : Globals).forceUnhealthy = none
      ∨ ({ sys.globals with forceUnhealthy := some false } : Globals).forceUnhealthy
        = some false := Or.inr rfl
  have key : ∀ st : ServingStatus,
      sys.healthService.Check { sys.globals with forceUnhealthy := some false } now req
          = (some { Status := st }, none) →
        ((sys.serve durationString t Request.makeServing).1.serve durationString now
            (Request.Check req)).2 = Reply.rpc (some { Status := st }) none := by
    intro st h
    simp only [System.serve, startHttpEndpoint.makeServing]
    rw [h]
  obtain ⟨hor, hiff⟩ := @Check_not_forced_iff sys.healthService
    { sys.globals with forceUnhealthy := some false } now req hreq1 hf
  refine ⟨?_, ⟨fun h => ?_, fun h => key _ (hiff.2 h)⟩, fun hd => key _ (Check_never hreq1 hf hd),
    fun hd he => key _ (Check_reached hreq1 hd he),
    fun he => key _ (Check_well_before hreq1 hf he),
    fun he hs => key _ (Check_before hreq1 hf he hs)⟩
  · rcases hor with h | h
    · exact Or.inl (key _ h)
    · exact Or.inr (key _ h)
  · rcases hor with h1 | h1
    · exact hiff.1 h1
    · rw [key _ h1] at h
      simp at h

/-- C1, witness: the amended statement at `delayUnhealthySec = 5`, `/make-serving`
at 2 s and a `Check` at 6 s. -/
theorem Check_after_makeServing_witness :
    ((({ globals := { init with delayUnhealthySec := 5, service := "svc" },
         healthService := NewHealthChecker 0, httpStarted := 0 } : System).serve
          (fun _ => "") 2000000000 Request.makeServing).1.serve (fun _ => "") 6000000000
        (Request.Check { Service := "svc" })).2
      = Reply.rpc (some { Status := ServingStatus.NOT_SERVING }) none :=
  (Check_after_makeServing (fun _ => "")
    { globals := { init with delayUnhealthySec := 5, service := "svc" },
      healthService := NewHealthChecker 0, httpStarted := 0 }
    2000000000 6000000000 { Service := "svc" } rfl).2.2.2.1 (by decide) (by decide)

set_option maxRecDepth 100000 in
set_option exponentiation.threshold 3000 in
/-- C2, counterexample.  With `delayUnhealthySec = 16777217`, no override and the
clock started at 0, a `Check` at 16777216.999999999 s (one nanosecond before the
deadline) answers `NOT_SERVING`: `Duration.Seconds` adds `float64(16777216)` and
`float64(999999999)/1e9`, and between `2^24` and `2^25` the `float64` grid has
spacing `2^-28`, so the sum is rounded to `16777217.0`. -/
theorem Check_one_nanosecond_early :
    Since 16777216999999999 (NewHealthChecker 0).started < 16777217 * Second ∧
      (NewHealthChecker 0).Check { init with delayUnhealthySec := 16777217 }
          16777216999999999 { Service := "" }
        = (some { Status := ServingStatus.NOT_SERVING }, none) := by
  decide

/-- C2, amended.  For a deadline `delayUnhealthySec >= 0` and no override, a
`Check` for the watched service name answers `NOT_SERVING` or `SERVING`, and
`NOT_SERVING` exactly when `duration.Seconds() >= float64(delayUnhealthySec)`
holds between the two `float64` values.  It answers `NOT_SERVING` whenever the
elapsed time is at least `delayUnhealthySec` seconds (the boundary included),
and for an elapsed time below `2^24` seconds it answers `NOT_SERVING` if and
only if the elapsed time is at least `delayUnhealthySec` seconds. -/
theorem Check_unset_deadline (s : HealthChecker) (g : Globals) (now : Int)
    (req : HealthCheckRequest) (hreq : req.Service = g.service)
    (hnone : g.forceUnhealthy = none) (hd : 0 ≤ g.delayUnhealthySec) :
    (s.Check g now req = (some { Status := ServingStatus.NOT_SERVING }, none) ∨
      s.Check g now req = (some { Status := ServingStatus.SERVING }, none)) ∧
    (s.Check g now req = (some { Status := ServingStatus.NOT_SERVING }, none) ↔
      (Float64.ofInt g.delayUnhealthySec).units
        ≤ (Duration.Seconds (Since now s.started)).units) ∧
    (g.delayUnhealthySec * Second ≤ Since now s.started →
      s.Check g now req = (some { Status := ServingStatus.NOT_SERVING }, none)) ∧
    (Since now s.started < 16777216 * Second →
      (s.Check g now req = (some { Status := ServingStatus.NOT_SERVING }, none) ↔
        g.delayUnhealthySec * Second ≤ Since now s.started)) := by
  have hc : s.Check g now req = _ := Check_not_forced hreq (Or.inl hnone)
  refine ⟨?_, ?_, fun he => Check_reached hreq hd he, fun hs => ?_⟩
  · rw [hc]
    split_ifs
    · exact Or.inl rfl
    · exact Or.inr rfl
  · rw [hc]
    simp [hd, Float64.ge]
  · constructor
    · intro h
      by_contra hlt
      rw [Check_before hreq (Or.inl hnone) (not_le.1 hlt) hs] at h
      simp at h
    · exact fun he => Check_reached hreq hd he

/-- C2, witness: the amended statement at `delayUnhealthySec = 5`, the clock
started at 0 and a `Check` at 6 s. -/
theorem Check_unset_deadline_witness :
    (NewHealthChecker 0).Check { init with delayUnhealthySec := 5, service := "svc" }
        6000000000 { Service := "svc" }
      = (some { Status := ServingStatus.NOT_SERVING }, none) :=
  (Check_unset_deadline (NewHealthChecker 0)
    { init with delayUnhealthySec := 5, service := "svc" } 6000000000 { Service := "svc" }
    rfl rfl (by decide)).2.2.1 (by decide)

/-- C3.  Once `/make-not-serving` has been served and no later command has, a
`Check` for the watched service name answers `NOT_SERVING`, for every state
before the command (every deadline, every earlier override) and at every
time. -/
theorem Check_after_makeNotServing (durationString : Int → String) (sys : System)
    (t now : Int) (req : HealthCheckRequest) (hreq : req.Service = sys.globals.service) :
    ((sys.serve durationString t Request.makeNotServing).1.serve durationString now
        (Request.Check req)).2
      = Reply.rpc (some { Status := ServingStatus.NOT_SERVING }) none := by
  simp only [System.serve, startHttpEndpoint.makeNotServing]
  rw [Check_forced (by exact hreq) rfl]

/-- C3, witness: the default configuration (deadline never), `/make-not-serving`
at 2 s and a `Check` at 3 s. -/
theorem Check_after_makeNotServing_witness :
    ((({ globals := init, healthService := NewHealthChecker 0, httpStarted := 0 }
        : System).serve (fun _ => "") 2000000000 Request.makeNotServing).1.serve
        (fun _ => "") 3000000000 (Request.Check { Service := "" })).2
      = Reply.rpc (some { Status := ServingStatus.NOT_SERVING }) none :=
  Check_after_makeNotServing (fun _ => "")
    { globals := init, healthService := NewHealthChecker 0, httpStarted := 0 }
    2000000000 3000000000 { Service := "" } rfl

/-- C4.  With a negative `delayUnhealthySec` (deadline never) and no override, a
`Check` for the watched service name answers `SERVING` at every time, in
particular at every time from the start on. -/
theorem Check_unset_never (s : HealthChecker) (g : Globals) (now : Int)
    (req : HealthCheckRequest) (hreq : req.Service = g.service)
    (hnone : g.forceUnhealthy = none) (hd : g.delayUnhealthySec < 0) :
    s.Check g now req = (some { Status := ServingStatus.SERVING }, none) :=
  Check_never hreq (Or.inl hnone) hd

/-- C4, witness: the default `delayUnhealthySec = -1` and a `Check` at 1000 s. -/
theorem Check_unset_never_witness :
    (NewHealthChecker 0).Check { init with service := "svc" } 1000000000000
        { Service := "svc" }
      = (some { Status := ServingStatus.SERVING }, none) :=
  Check_unset_never (NewHealthChecker 0) { init with service := "svc" } 1000000000000
    { Service := "svc" } rfl rfl (by decide)

/-- C5.  A `Check` for a name other than the watched service name fails with
the `NotFound` error and returns no response, whatever the override, the
deadline and the time; a `Check` for the watched name returns a response and no
error. -/
theorem Check_NotFound (s : HealthChecker) (g : Globals) (now : Int)
    (req : HealthCheckRequest) :
    (req.Service ≠ g.service →
      s.Check g now req
        = (none, some { code := Code.NotFound, message := "unknown service" })) ∧
    (req.Service = g.service →
      (s.Check g now req).2 = none ∧ (s.Check g now req).1 ≠ none) := by
  refine ⟨fun h => Check_of_ne h, fun h => ?_⟩
  rw [Check_of_eq h]
  exact ⟨rfl, by simp⟩

/-- C5, witness: with the default empty service name, the name `other` is not
found and the empty name is answered. -/
theorem Check_NotFound_witness :
    (NewHealthChecker 0).Check init 0 { Service := "other" }
        = (none, some { code := Code.NotFound, message := "unknown service" }) ∧
      ((NewHealthChecker 0).Check init 0 { Service := "" }).2 = none :=
  ⟨(Check_NotFound (NewHealthChecker 0) init 0 { Service := "other" }).1 (by decide),
    ((Check_NotFound (NewHealthChecker 0) init 0 { Service := "" }).2 rfl).1⟩

/-- C6.  The `/healthcheck` handler answers with status 200 in every state
(every override, every deadline) and at every time, also when it is served
right after `/make-not-serving`. -/
theorem healthcheck_status (durationString : Int → String) (sys : System) (t now : Int) :
    (∃ w, (sys.serve durationString now Request.healthcheck).2 = Reply.http w ∧
      w.status = some 200) ∧
    (∃ w, ((sys.serve durationString t Request.makeNotServing).1.serve durationString now
        Request.healthcheck).2 = Reply.http w ∧ w.status = some 200) :=
  ⟨⟨_, rfl, rfl⟩, ⟨_, rfl, rfl⟩⟩

/-- C7.  For two override commands `c1` and `c2`, the state after `c1` then `c2`
is the state after `c2` alone, whenever the commands are served; so the same
command twice is the command once, and every later `Check` has the same answer
in both cases. -/
theorem override_last_write_wins (durationString : Int → String) (sys : System)
    (c1 c2 : OverrideCommand) (t1 t2 t3 : Int) :
    ((sys.serve durationString t1 c1.toRequest).1.serve durationString t2 c2.toRequest).1
        = (sys.serve durationString t3 c2.toRequest).1 ∧
    ((sys.serve durationString t1 c2.toRequest).1.serve durationString t2 c2.toRequest).1
        = (sys.serve durationString t3 c2.toRequest).1 ∧
    ∀ (now : Int) (req : HealthCheckRequest),
      (((sys.serve durationString t1 c1.toRequest).1.serve durationString t2
          c2.toRequest).1.serve durationString now (Request.Check req)).2
        = ((sys.serve durationString t3 c2.toRequest).1.serve durationString now
            (Request.Check req)).2 := by
  cases c1 <;> cases c2 <;> exact ⟨rfl, rfl, fun _ _ => rfl⟩

/-- C8.  A `Check` (found or not found), a `Watch` and a `/healthcheck` request
leave the whole state as it was: the override flag, both start times, the
deadline and the watched service name.  Every request is one of the two
override commands or leaves the state as it was. -/
theorem readers_leave_state (durationString : Int → String) (sys : System) (now : Int) :
    (∀ req, (sys.serve durationString now (Request.Check req)).1 = sys) ∧
    (∀ req server, (sys.serve durationString now (Request.Watch req server)).1 = sys) ∧
    (sys.serve durationString now Request.healthcheck).1 = sys ∧
    ∀ r : Request, r = Request.makeServing ∨ r = Request.makeNotServing ∨
      (sys.serve durationString now r).1 = sys := by
  refine ⟨fun _ => rfl, fun _ _ => rfl, rfl, fun r => ?_⟩
  cases r
  · exact Or.inr (Or.inr rfl)
  · exact Or.inr (Or.inr rfl)
  · exact Or.inr (Or.inl rfl)
  · exact Or.inl rfl
  · exact Or.inr (Or.inr rfl)

/-- C9.  `Watch` fails with the `Unimplemented` code for every request and in
every state, and the stream holds afterwards what it held before. -/
theorem Watch_unimplemented (durationString : Int → String) (sys : System) (now : Int)
    (req : HealthCheckRequest) (server : List HealthCheckResponse) :
    sys.healthService.Watch req server
        = (server, some { code := Code.Unimplemented, message := "unimplemented" }) ∧
    (sys.serve durationString now (Request.Watch req server)).2
        = Reply.stream server
            (some { code := Code.Unimplemented, message := "unimplemented" }) :=
  ⟨rfl, rfl⟩

/-- C10.  `Check` gives the same result when `forceUnhealthy` points to `false`
(the state that `/make-serving` leaves) and when it is `nil`, for every
deadline, every time and every requested name. -/
theorem Check_false_eq_nil (durationString : Int → String) (s : HealthChecker)
    (g : Globals) (started t now : Int) (w : ResponseWriter) (req : HealthCheckRequest) :
    (startHttpEndpoint.makeServing durationString started g t w).1.forceUnhealthy
        = some false ∧
    s.Check { g with forceUnhealthy := some false } now req
        = s.Check { g with forceUnhealthy := none } now req :=
  ⟨rfl, rfl⟩

end GrpcHealthChecking
